import Mathlib

/-!
Shallow embedding of the dataclass overlay
(src/pytype/overlays/dataclass_overlay.py).

The module implements the @dataclass decorator for the pytype analyzer:
it collects the annotated members of a class into an ordered attribute
list, resolves field() descriptors, InitVar and ClassVar markers, checks
default values against their declared types, merges the list with the
attribute lists of the base classes, stashes the result in the class
metadata and conditionally synthesizes an __init__ member.

Modelling conventions:
- Program points (cfg nodes) are natural numbers; decorate only threads
  them, it never advances them itself.
- Abstract values and variables of the engine are collapsed into one
  inductive type Val.  Engine operations that build new values
  (instantiate, to_variable, merge_classes, calling a default factory)
  are recorded symbolically as constructors.
- Python dicts (cls.members and the annotations dict reached through
  get_annotations_dict) are insertion-ordered association lists; the
  keys of a Python dict are unique, so deletion removes every binding
  of the key.
- The host matcher bad_matches is an oracle parameter (bm): it returns
  true when the list of bad matches is nonempty.
- get_class_locals is an engine collaborator; its result (an ordered
  mapping name to (value, original), first-annotation order) is passed
  to decorate as the clsLocals argument.
- Fallible Python code (del on a dict, raise DuplicateKeyword) becomes
  Except.
-/

/-- Program points of the host analysis engine. -/
abbrev Node := Nat

/-- Abstract values / variables of the engine, collapsed into one type.
Constructors instanceOf, toVar, merged, factoryCall and initMethod record
engine operations symbolically. -/
inductive Val : Type where
  /-- a plain named abstract value or type -/
  | plain : String → Val
  /-- a typing.ClassVar[T] container annotation -/
  | classVar : Val → Val
  /-- a dataclasses.InitVar[T] container annotation -/
  | initVar : Val → Val
  /-- a FieldInstance with a default: return value of a field() call,
  carrying (typ, init, default) exactly as in the FieldInstance class -/
  | fieldInstD : Val → Bool → Val → Val
  /-- a FieldInstance whose default is None -/
  | fieldInstN : Val → Bool → Val
  /-- result of typ.instantiate(node) -/
  | instanceOf : Val → Node → Val
  /-- result of typ.to_variable(node) -/
  | toVar : Val → Node → Val
  /-- result of vm.convert.merge_classes(value.data) -/
  | merged : Val → Val
  /-- value produced by calling a default factory at a program point -/
  | factoryCall : Val → Node → Val
  /-- synthetic constructor produced by make_init; records the names of
  the init parameters (the init=true attributes, in merged order) and
  the program point -/
  | initMethod : List String → Node → Val
deriving DecidableEq, Repr

/-- One synthesized constructor parameter / instance slot
(classgen.Attribute as used by this module). -/
structure Attribute : Type where
  name : String
  typ : Val
  init : Bool
  default : Option Val
deriving DecidableEq, Repr

/-- One annotation_type_mismatch diagnostic: the errorlog call receives
the merged type of the declared annotation, the offending binding and
the attribute name. -/
structure Diagnostic : Type where
  typ : Val
  value : Val
  name : String
deriving DecidableEq, Repr

/-- Errors that abort decorate: a Python KeyError from del on a missing
dict key. -/
inductive DecorateError : Type where
  | keyError : String → DecorateError
deriving DecidableEq, Repr

/-- Errors raised by Field._get_default_var:
function.DuplicateKeyword naming the conflicting parameter. -/
inductive FieldError : Type where
  | duplicateKeyword : String → FieldError
deriving DecidableEq, Repr

/-- The class object as seen by this module: the annotations dict
(reached through abstract_utils.get_annotations_dict(cls.members)), the
members dict, the class metadata entry for __dataclass_fields__, the
attribute lists found in the metadata of the MRO base classes, and the
init flag of the decorator call (self.args[cls]["init"]). -/
structure DCClass : Type where
  annots : List (String × Val)
  members : List (String × Val)
  metadata : Option (List Attribute)
  baseMetadata : List (List Attribute)
  initArg : Bool
deriving DecidableEq, Repr

/-- What a call of decorate communicates: the mutated class, the
diagnostics reported to the errorlog, and the value the Python function
returns (decorate has no return statement, so Python returns None,
modelled as ret = none). -/
structure DecorateResult : Type where
  cls : DCClass
  diags : List Diagnostic
  ret : Option Node
deriving DecidableEq, Repr

/-- One entry of the get_class_locals result: name, current value,
original declared value or none. -/
abbrev LocalEntry := String × Val × Option Val

/-- The host matcher: bad_matches(orig, typ, node) is nonempty. -/
abbrev Oracle := Val → Val → Node → Bool

/-- Python dict lookup on an insertion-ordered association list. -/
def dictGet : List (String × Val) → String → Option Val
  | [], _ => none
  | (k, v) :: rest, key => if k = key then some v else dictGet rest key

/-- Python dict assignment: updates the binding in place when the key is
present (a dict keeps the original slot of an updated key), appends
otherwise. -/
def dictSet : List (String × Val) → String → Val → List (String × Val)
  | [], key, v => [(key, v)]
  | (k, w) :: rest, key, v =>
    if k = key then (k, v) :: rest else (k, w) :: dictSet rest key v

/-- Python del on a dict: removes the key when present (dict keys are
unique, so removing every binding of the key is the same operation),
raises KeyError (none) otherwise. -/
def dictDel (m : List (String × Val)) (key : String) :
    Option (List (String × Val)) :=
  if (dictGet m key).isSome then some (m.filter (fun p => p.1 != key)) else none

/-- match_initvar: unpack the type parameter from InitVar[T]
(abstract_utils.match_type_container(var, "dataclasses.InitVar")). -/
def match_initvar : Val → Option Val
  | .initVar t => some t
  | _ => none

/-- match_classvar: unpack the type parameter from ClassVar[T]
(abstract_utils.match_type_container(var, "typing.ClassVar")). -/
def match_classvar : Val → Option Val
  | .classVar t => some t
  | _ => none

/-- is_field(var): var is truthy and var.data[0] is a FieldInstance. -/
def is_field : Option Val → Bool
  | some (.fieldInstD _ _ _) => true
  | some (.fieldInstN _ _) => true
  | _ => false

/-- The (typ, init, default) triple of a FieldInstance, when the original
value is one (the field accesses orig.data[0].typ / .init / .default in
Dataclass.decorate). -/
def fieldParams : Option Val → Option (Val × Bool × Option Val)
  | some (.fieldInstD t i d) => some (t, i, some d)
  | some (.fieldInstN t i) => some (t, i, none)
  | _ => none

/-- Dataclass._check_default(node, name, value, orig): if orig is absent
do nothing; otherwise compute typ = merge_classes(value.data) and, when
bad_matches(orig, typ, node) is nonempty, report one
annotation_type_mismatch diagnostic.  The reported diagnostics are
returned as a list. -/
def check_default (bm : Oracle) (node : Node) (nm : String) (value : Val)
    (orig : Option Val) : List Diagnostic :=
  match orig with
  | none => []
  | some o =>
    let typ := Val.merged value
    if bm o typ node then [⟨typ, o, nm⟩] else []

/-- Dataclass._handle_initvar(node, cls, name, value, orig): when value
matches InitVar[T], either delete the name from the annotations dict
(orig is None: InitVars without a default are not retained; del raises
KeyError when the name is missing) or rewrite the annotation to the
unpacked type T.to_variable(node).  Returns the unpacked type, or none
when value is not an InitVar. -/
def handle_initvar (node : Node) (cls : DCClass) (nm : String) (v : Val)
    (orig : Option Val) : Except DecorateError (DCClass × Option Val) :=
  match match_initvar v with
  | none => .ok (cls, none)
  | some iv =>
    match orig with
    | none =>
      match dictDel cls.annots nm with
      | some an => .ok ({cls with annots := an}, some iv)
      | none => .error (.keyError nm)
    | some _ =>
      .ok ({cls with annots := dictSet cls.annots nm (.toVar iv node)}, some iv)

/-- The per-member loop of Dataclass.decorate: for each (name, value,
orig) of the class locals, skip ClassVars, handle InitVars, store the
value back into cls.members for ordinary members, resolve FieldInstance
originals (orig = field.typ if field.default else None, init =
field.init), run the default check, and record an Attribute.  Returns
the mutated class, the diagnostics in emission order and own_attrs. -/
def collectOwn (bm : Oracle) (node : Node) :
    DCClass → List LocalEntry →
    Except DecorateError (DCClass × List Diagnostic × List Attribute)
  | cls, [] => .ok (cls, [], [])
  | cls, (nm, v, orig) :: rest =>
    if (match_classvar v).isSome then
      collectOwn bm node cls rest
    else
      match handle_initvar node cls nm v orig with
      | .error e => .error e
      | .ok (cls1, ivOpt) =>
        let value2 := match ivOpt with
          | some iv => Val.instanceOf iv node
          | none => v
        let init2 := match ivOpt, fieldParams orig with
          | some _, _ => true
          | none, some (_, i, _) => i
          | none, none => true
        let orig2 := match ivOpt, fieldParams orig with
          | some _, _ => orig
          | none, some (t, _, d) => if d.isSome then some t else none
          | none, none => orig
        let cls2 := match ivOpt with
          | some _ => cls1
          | none => {cls1 with members := dictSet cls1.members nm v}
        match collectOwn bm node cls2 rest with
        | .error e => .error e
        | .ok (cls3, diags, attrs) =>
          .ok (cls3, check_default bm node nm value2 orig2 ++ diags,
               ⟨nm, value2, init2, orig2⟩ :: attrs)

/-- Helper of the modelled get_base_class_attrs: walk the inherited
attributes and keep each one whose name has not been taken yet. -/
def collectBase : List Attribute → List String → List Attribute
  | [], _ => []
  | a :: rest, taken =>
    if a.name ∈ taken then collectBase rest taken
    else a :: collectBase rest (a.name :: taken)

/-- Modelled from the spec: classgen.Decorator.get_base_class_attrs is
not part of the sources; per the spec it retrieves the attribute list
from the metadata of each base class, concatenates them in base order,
and never lets a name appear twice in the final merged list base_attrs
++ own_attrs (an own attribute overrides the inherited entry rather
than duplicating it; a name is recorded at most once per class).  Hence
an inherited entry is kept only when its name is taken neither by an
own attribute nor by an earlier inherited entry. -/
def get_base_class_attrs (baseMetadata : List (List Attribute))
    (ownAttrsList : List Attribute) : List Attribute :=
  collectBase baseMetadata.flatten (ownAttrsList.map (fun a => a.name))

/-- Modelled from the spec: classgen.Decorator.make_init is not part of
the sources; per the spec it builds a synthetic constructor whose
parameter list is exactly the attributes with init = true, in merged
order.  The parameter names and the program point are recorded. -/
def make_init (node : Node) (attrs : List Attribute) : Val :=
  .initMethod ((attrs.filter (fun a => a.init)).map (fun a => a.name)) node

/-- Dataclass.decorate(node, cls): run the collection loop over the
class locals, merge with the base class attributes, stash the merged
list in the class metadata under __dataclass_fields__, and add an
__init__ member when one does not exist already and the init flag of
the decorator is true.  The Python function has no return statement,
so its return value is None (ret = none). -/
def decorate (bm : Oracle) (node : Node) (cls : DCClass)
    (clsLocals : List LocalEntry) : Except DecorateError DecorateResult :=
  match collectOwn bm node cls clsLocals with
  | .error e => .error e
  | .ok (cls1, diags, ownList) =>
    let baseAttrs := get_base_class_attrs cls1.baseMetadata ownList
    let attrs := baseAttrs ++ ownList
    let cls2 := {cls1 with metadata := some attrs}
    let cls3 :=
      if (dictGet cls2.members "__init__").isNone && cls2.initArg then
        {cls2 with members := dictSet cls2.members "__init__" (make_init node attrs)}
      else cls2
    .ok ⟨cls3, diags, none⟩

/-- Keyword arguments of a field() call. -/
structure Args : Type where
  namedargs : List (String × Val)
deriving DecidableEq, Repr

/-- Field._get_default_var(node, args): raise DuplicateKeyword("default")
when both default and default_factory are supplied; otherwise take the
default value, or call the zero-argument factory at the program point
(recorded symbolically), or return no default. -/
def get_default_var (node : Node) (args : Args) :
    Except FieldError (Node × Option Val) :=
  match dictGet args.namedargs "default", dictGet args.namedargs "default_factory" with
  | some _, some _ => .error (.duplicateKeyword "default")
  | some d, none => .ok (node, some d)
  | none, some f => .ok (node, some (.factoryCall f node))
  | none, none => .ok (node, none)

/-! ## Pure replay functions

The next definitions replay, entry by entry, what the collection loop of
decorate computes; they are related to collectOwn by the lemma
collectOwn_eq below and let the claims be stated over pure functions of
the inputs. -/

/-- The Attribute that the loop body of decorate records for one class
local (name, value, orig): for an InitVar the value is instantiated and
init is forced to true; for a FieldInstance original, init comes from the
field and the recorded default is field.typ when field.default is set,
none otherwise; otherwise init is true and the default is the original
value. -/
def mkAttrFor (node : Node) (nm : String) (v : Val) (orig : Option Val) :
    Attribute :=
  match match_initvar v with
  | some iv => ⟨nm, .instanceOf iv node, true, orig⟩
  | none =>
    match fieldParams orig with
    | some (t, i, d) => ⟨nm, v, i, if d.isSome then some t else none⟩
    | none => ⟨nm, v, true, orig⟩

/-- The own_attrs list decorate builds: one Attribute per class local
that is not a ClassVar, in first-annotation order. -/
def ownAttrs (node : Node) (l : List LocalEntry) : List Attribute :=
  (l.filter (fun e => (match_classvar e.2.1).isNone)).map
    (fun e => mkAttrFor node e.1 e.2.1 e.2.2)

/-- The diagnostics that processing one class local emits: none for a
ClassVar, otherwise the result of the default check run on the resolved
value and default. -/
def localDiags (bm : Oracle) (node : Node) (e : LocalEntry) : List Diagnostic :=
  if (match_classvar e.2.1).isSome then []
  else
    let a := mkAttrFor node e.1 e.2.1 e.2.2
    check_default bm node e.1 a.typ a.default

/-- How the collection loop rewrites cls.members: every non-ClassVar,
non-InitVar local is stored back under its name. -/
def membersAfter : List (String × Val) → List LocalEntry → List (String × Val)
  | m, [] => m
  | m, (nm, v, _) :: rest =>
    if (match_classvar v).isSome then membersAfter m rest
    else
      match match_initvar v with
      | some _ => membersAfter m rest
      | none => membersAfter (dictSet m nm v) rest

/-- How the collection loop rewrites the annotations dict: an InitVar
without an original value is deleted (KeyError when absent), an InitVar
with one is rewritten to the unpacked type, everything else is left
alone. -/
def annotsAfterE (node : Node) :
    List (String × Val) → List LocalEntry →
    Except DecorateError (List (String × Val))
  | an, [] => .ok an
  | an, (nm, v, orig) :: rest =>
    if (match_classvar v).isSome then annotsAfterE node an rest
    else
      match match_initvar v with
      | some iv =>
        match orig with
        | none =>
          match dictDel an nm with
          | some a2 => annotsAfterE node a2 rest
          | none => .error (.keyError nm)
        | some _ => annotsAfterE node (dictSet an nm (.toVar iv node)) rest
      | none => annotsAfterE node an rest

/-- Forget the error of an Except. -/
def okOf {ε α : Type} : Except ε α → Option α
  | .ok a => some a
  | .error _ => none

/-! ## Concrete inputs for counterexamples and witnesses -/

/-- A host matcher that never reports a bad match. -/
def bmFalse : Oracle := fun _ _ _ => false

/-- A host matcher that always reports a bad match. -/
def bmTrue : Oracle := fun _ _ _ => true

def tInt : Val := .plain "int"

def tStr : Val := .plain "str"

def vZero : Val := .plain "zero"

def vHello : Val := .plain "hello"

def vThree : Val := .plain "three"

def emptyDC : DCClass := ⟨[], [], none, [], false⟩

def emptyRes : DecorateResult := ⟨emptyDC, [], none⟩

/-- Inherited attribute a of the base class used in the C1 example. -/
def attrA : Attribute := ⟨"a", tInt, true, none⟩

/-- Inherited attribute b of the base class used in the C1 example. -/
def attrB : Attribute := ⟨"b", tStr, true, none⟩

/-- C1 counterexample class: one base class whose metadata lists a and b. -/
def clsC1 : DCClass := ⟨[], [], none, [[attrA, attrB]], true⟩

/-- C1 counterexample locals: the subclass overrides the inherited a. -/
def localsC1 : List LocalEntry := [("a", tInt, some vZero)]

def clsC1w : DCClass := ⟨[], [], none, [[attrA, attrB]], true⟩

def localsC1w : List LocalEntry := [("a", tInt, some vZero), ("c", tStr, none)]

def resC1w : DecorateResult := (okOf (decorate bmFalse 0 clsC1w localsC1w)).getD emptyRes

/-- C2 counterexample class. -/
def clsC2 : DCClass := ⟨[], [], none, [], true⟩

/-- C2 counterexample locals: member x with annotated type int whose
original value is a field() descriptor with typ int, init true and
default the value three. -/
def localsC2 : List LocalEntry := [("x", tInt, some (.fieldInstD tInt true vThree))]

def clsC2w : DCClass := ⟨[], [], none, [], true⟩

def localsC2w : List LocalEntry := [("y", tStr, some (.fieldInstN tInt false))]

def resC2w : DecorateResult := (okOf (decorate bmFalse 0 clsC2w localsC2w)).getD emptyRes

def clsC3 : DCClass := ⟨[], [], none, [], true⟩

def clsC3w : DCClass := ⟨[], [], none, [], false⟩

def resC3w : DecorateResult := (okOf (decorate bmTrue 5 clsC3w [])).getD emptyRes

def clsC6w : DCClass := ⟨[], [], none, [], true⟩

def resC6w : DecorateResult := (okOf (decorate bmFalse 3 clsC6w [])).getD emptyRes

/-- C7 witness class: the annotations dict holds the InitVar member x. -/
def clsC7w : DCClass := ⟨[("x", tInt)], [], none, [], true⟩

def localsC7w : List LocalEntry := [("x", .initVar tInt, none)]

def resC7w : DecorateResult := (okOf (decorate bmFalse 0 clsC7w localsC7w)).getD emptyRes

/-- Inherited attribute y of the base class used in the C8 witness. -/
def attrY : Attribute := ⟨"y", tInt, true, none⟩

def clsC8w : DCClass := ⟨[], [], none, [[attrY]], true⟩

def localsC8w : List LocalEntry := [("x", .classVar tInt, none)]

def resC8w : DecorateResult := (okOf (decorate bmFalse 0 clsC8w localsC8w)).getD emptyRes

/-- C9 counterexample class: annotations hold x, the locals declare x as
an InitVar without a default. -/
def clsC9 : DCClass := ⟨[("x", tInt)], [], none, [], true⟩

def localsC9 : List LocalEntry := [("x", .initVar tInt, none)]

def clsC9w : DCClass := ⟨[], [], none, [], true⟩

def localsC9w : List LocalEntry := [("x", tInt, some vZero)]

def resC9w : DecorateResult := (okOf (decorate bmFalse 0 clsC9w localsC9w)).getD emptyRes

/-- C10 witness class: an explicit __init__ member is already present. -/
def clsC10w : DCClass := ⟨[], [("__init__", tInt)], none, [], true⟩

def localsC10w : List LocalEntry := [("x", tInt, none)]

def resC10w : DecorateResult := (okOf (decorate bmFalse 0 clsC10w localsC10w)).getD emptyRes

/-! ## Lemmas about the dict operations -/

theorem dictGet_set_self (m : List (String × Val)) (k : String) (v : Val) :
    dictGet (dictSet m k v) k = some v := by
  induction m with
  | nil => simp [dictSet, dictGet]
  | cons p rest ih =>
    obtain ⟨k1, v1⟩ := p
    by_cases h : k1 = k <;> simp [dictSet, dictGet, h, ih]

theorem dictGet_set_ne (m : List (String × Val)) (k k2 : String) (v : Val)
    (hne : k2 ≠ k) : dictGet (dictSet m k v) k2 = dictGet m k2 := by
  have hne2 : ¬k = k2 := fun hh => hne hh.symm
  induction m with
  | nil => simp [dictSet, dictGet, hne2]
  | cons p rest ih =>
    obtain ⟨k1, v1⟩ := p
    by_cases h : k1 = k
    · subst h
      simp [dictSet, dictGet, hne2]
    · by_cases h2 : k1 = k2 <;> simp [dictSet, dictGet, h, h2, hne, hne2, ih]

theorem dictGet_filterOut (m : List (String × Val)) (k : String) :
    dictGet (m.filter (fun p => p.1 != k)) k = none := by
  induction m with
  | nil => rfl
  | cons p rest ih =>
    obtain ⟨k1, v1⟩ := p
    by_cases h : k1 = k <;> simp [List.filter_cons, h, dictGet, ih]

theorem dictGet_filterOut_ne (m : List (String × Val)) (k k2 : String)
    (hne : k2 ≠ k) :
    dictGet (m.filter (fun p => p.1 != k)) k2 = dictGet m k2 := by
  have hne2 : ¬k = k2 := fun hh => hne hh.symm
  induction m with
  | nil => rfl
  | cons p rest ih =>
    obtain ⟨k1, v1⟩ := p
    by_cases h : k1 = k
    · subst h
      simp [List.filter_cons, dictGet, hne2, ih]
    · by_cases h2 : k1 = k2 <;>
        simp [List.filter_cons, h, h2, hne, hne2, dictGet, ih]

theorem dictGet_del_self (m m2 : List (String × Val)) (k : String)
    (h : dictDel m k = some m2) : dictGet m2 k = none := by
  unfold dictDel at h
  by_cases hg : (dictGet m k).isSome
  · simp only [hg, if_pos] at h
    cases h
    exact dictGet_filterOut m k
  · simp [hg] at h

theorem dictGet_del_ne (m m2 : List (String × Val)) (k k2 : String)
    (h : dictDel m k = some m2) (hne : k2 ≠ k) :
    dictGet m2 k2 = dictGet m k2 := by
  unfold dictDel at h
  by_cases hg : (dictGet m k).isSome
  · simp only [hg, if_pos] at h
    cases h
    exact dictGet_filterOut_ne m k k2 hne
  · simp [hg] at h

/-! ## The replay characterization of collectOwn and decorate -/

theorem collectOwn_eq (bm : Oracle) (node : Node) :
    ∀ (l : List LocalEntry) (cls : DCClass),
    collectOwn bm node cls l =
      (annotsAfterE node cls.annots l).map (fun an =>
        ({cls with annots := an, members := membersAfter cls.members l},
         l.flatMap (localDiags bm node), ownAttrs node l)) := by
  intro l
  induction l with
  | nil => intro cls; rfl
  | cons e rest ih =>
    intro cls
    obtain ⟨nm, v, orig⟩ := e
    cases hcv : match_classvar v with
    | some t =>
      simp only [collectOwn, annotsAfterE, hcv, Option.isSome_some, if_true]
      rw [ih]
      simp [membersAfter, ownAttrs, localDiags, hcv, List.flatMap_cons,
        List.filter_cons]
    | none =>
      cases hiv : match_initvar v with
      | some iv =>
        cases orig with
        | none =>
          cases hdel : dictDel cls.annots nm with
          | none =>
            simp [collectOwn, annotsAfterE, hcv, hiv, hdel, handle_initvar,
              Except.map]
          | some an2 =>
            simp only [collectOwn, annotsAfterE, hcv, hiv, hdel,
              handle_initvar, Option.isSome_none, Bool.false_eq_true,
              if_false, reduceCtorEq]
            rw [ih]
            cases h2 : annotsAfterE node an2 rest with
            | error e =>
              simp [h2, Except.map, membersAfter, hcv, hiv]
            | ok an3 =>
              simp [h2, Except.map, membersAfter, ownAttrs, localDiags,
                mkAttrFor, check_default, hcv, hiv, List.flatMap_cons,
                List.filter_cons]
        | some ov =>
          simp only [collectOwn, annotsAfterE, hcv, hiv, handle_initvar,
            Option.isSome_none, Bool.false_eq_true, if_false, reduceCtorEq]
          rw [ih]
          cases h2 : annotsAfterE node (dictSet cls.annots nm (.toVar iv node)) rest with
          | error e =>
            simp [h2, Except.map, membersAfter, hcv, hiv]
          | ok an3 =>
            simp [h2, Except.map, membersAfter, ownAttrs, localDiags,
              mkAttrFor, check_default, hcv, hiv, List.flatMap_cons,
              List.filter_cons]
      | none =>
        simp only [collectOwn, annotsAfterE, hcv, hiv, handle_initvar,
          Option.isSome_none, Bool.false_eq_true, if_false, reduceCtorEq]
        rw [ih]
        cases h2 : annotsAfterE node cls.annots rest with
        | error e =>
          simp [h2, Except.map, membersAfter, hcv, hiv]
        | ok an3 =>
          cases hfp : fieldParams orig with
          | none =>
            simp [h2, Except.map, membersAfter, ownAttrs, localDiags,
              mkAttrFor, hcv, hiv, hfp, List.flatMap_cons, List.filter_cons]
          | some tid =>
            obtain ⟨t, i, d⟩ := tid
            simp [h2, Except.map, membersAfter, ownAttrs, localDiags,
              mkAttrFor, hcv, hiv, hfp, List.flatMap_cons, List.filter_cons]

theorem decorate_eq (bm : Oracle) (node : Node) (cls : DCClass)
    (l : List LocalEntry) :
    decorate bm node cls l =
      (annotsAfterE node cls.annots l).map (fun an =>
        let own := ownAttrs node l
        let attrs := get_base_class_attrs cls.baseMetadata own ++ own
        let m2 := membersAfter cls.members l
        let m3 := if (dictGet m2 "__init__").isNone && cls.initArg then
            dictSet m2 "__init__" (make_init node attrs) else m2
        (⟨{cls with annots := an, members := m3, metadata := some attrs},
          l.flatMap (localDiags bm node), none⟩ : DecorateResult)) := by
  unfold decorate
  rw [collectOwn_eq]
  cases h : annotsAfterE node cls.annots l with
  | error e => simp [h, Except.map]
  | ok an =>
    simp only [h, Except.map]
    by_cases hc : dictGet (membersAfter cls.members l) "__init__" = none ∧
        cls.initArg = true
    · simp [hc]
    · simp [hc]

/-! ## Helper lemmas about the replay functions -/

theorem annotsAfterE_append (node : Node) (x y : List LocalEntry) :
    ∀ an, annotsAfterE node an (x ++ y) =
      match annotsAfterE node an x with
      | .ok a2 => annotsAfterE node a2 y
      | .error e => .error e := by
  induction x with
  | nil => intro an; simp [annotsAfterE]
  | cons e rest ih =>
    intro an
    obtain ⟨nm, v, orig⟩ := e
    cases hcv : match_classvar v with
    | some t => simp [annotsAfterE, hcv, ih]
    | none =>
      cases hiv : match_initvar v with
      | some iv =>
        cases orig with
        | none =>
          cases hdel : dictDel an nm with
          | none => simp [annotsAfterE, hcv, hiv, hdel]
          | some a2 => simp [annotsAfterE, hcv, hiv, hdel, ih]
        | some ov => simp [annotsAfterE, hcv, hiv, ih]
      | none => simp [annotsAfterE, hcv, hiv, ih]

theorem annotsAfterE_get_not_mem (node : Node) (nm : String) :
    ∀ (l : List LocalEntry) (an a2 : List (String × Val)),
    nm ∉ l.map (fun e => e.1) →
    annotsAfterE node an l = .ok a2 → dictGet a2 nm = dictGet an nm := by
  intro l
  induction l with
  | nil =>
    intro an a2 _ he
    cases he
    rfl
  | cons e rest ih =>
    intro an a2 hmem he
    obtain ⟨k, v, orig⟩ := e
    have hk : k ≠ nm := by
      intro hh
      exact hmem (by simp [hh])
    have hrest : nm ∉ rest.map (fun e => e.1) := by
      intro hh
      exact hmem (by simp [hh])
    cases hcv : match_classvar v with
    | some t =>
      simp only [annotsAfterE, hcv, Option.isSome_some, if_true] at he
      exact ih an a2 hrest he
    | none =>
      cases hiv : match_initvar v with
      | some iv =>
        cases orig with
        | none =>
          cases hdel : dictDel an k with
          | none =>
            simp [annotsAfterE, hcv, hiv, hdel] at he
          | some a3 =>
            simp only [annotsAfterE, hcv, hiv, hdel, Option.isSome_none,
              Bool.false_eq_true, if_false] at he
            rw [ih a3 a2 hrest he]
            exact dictGet_del_ne an a3 k nm hdel (fun hh => hk hh.symm)
        | some ov =>
          simp only [annotsAfterE, hcv, hiv, Option.isSome_none,
            Bool.false_eq_true, if_false] at he
          rw [ih _ a2 hrest he]
          exact dictGet_set_ne an k nm _ (fun hh => hk hh.symm)
      | none =>
        simp only [annotsAfterE, hcv, hiv, Option.isSome_none,
          Bool.false_eq_true, if_false] at he
        exact ih an a2 hrest he

theorem annotsAfterE_ok (node : Node) :
    ∀ (l : List LocalEntry),
    (∀ e ∈ l, (match_initvar e.2.1).isSome → e.2.2.isSome) →
    ∀ an, ∃ a2, annotsAfterE node an l = .ok a2 := by
  intro l
  induction l with
  | nil => intro _ an; exact ⟨an, rfl⟩
  | cons e rest ih =>
    intro hno an
    obtain ⟨k, v, orig⟩ := e
    have hrest : ∀ e ∈ rest, (match_initvar e.2.1).isSome → e.2.2.isSome :=
      fun e he => hno e (List.mem_cons_of_mem _ he)
    cases hcv : match_classvar v with
    | some t =>
      obtain ⟨a2, h2⟩ := ih hrest an
      exact ⟨a2, by simp [annotsAfterE, hcv, h2]⟩
    | none =>
      cases hiv : match_initvar v with
      | some iv =>
        cases orig with
        | none =>
          have := hno (k, v, none) (List.mem_cons_self _ _)
          simp [hiv] at this
        | some ov =>
          obtain ⟨a2, h2⟩ := ih hrest (dictSet an k (.toVar iv node))
          exact ⟨a2, by simp [annotsAfterE, hcv, hiv, h2]⟩
      | none =>
        obtain ⟨a2, h2⟩ := ih hrest an
        exact ⟨a2, by simp [annotsAfterE, hcv, hiv, h2]⟩

theorem ownAttrs_append (node : Node) (x y : List LocalEntry) :
    ownAttrs node (x ++ y) = ownAttrs node x ++ ownAttrs node y := by
  simp [ownAttrs, List.filter_append]

theorem mkAttrFor_name (node : Node) (nm : String) (v : Val) (o : Option Val) :
    (mkAttrFor node nm v o).name = nm := by
  unfold mkAttrFor
  cases h1 : match_initvar v with
  | some iv => rfl
  | none =>
    cases h2 : fieldParams o with
    | none => rfl
    | some tid =>
      obtain ⟨t, i, d⟩ := tid
      rfl

theorem mem_ownAttrs (node : Node) (l : List LocalEntry) (nm : String)
    (v : Val) (o : Option Val) (hmem : (nm, v, o) ∈ l)
    (hcv : match_classvar v = none) :
    mkAttrFor node nm v o ∈ ownAttrs node l := by
  unfold ownAttrs
  exact List.mem_map_of_mem _ (List.mem_filter.mpr ⟨hmem, by simp [hcv]⟩)

theorem mem_ownAttrs_inv (node : Node) (l : List LocalEntry) (a : Attribute)
    (h : a ∈ ownAttrs node l) :
    ∃ e ∈ l, match_classvar e.2.1 = none ∧
      a = mkAttrFor node e.1 e.2.1 e.2.2 := by
  unfold ownAttrs at h
  obtain ⟨e, he, rfl⟩ := List.mem_map.mp h
  have hf := List.mem_filter.mp he
  exact ⟨e, hf.1, by simpa using hf.2, rfl⟩

theorem nodup_key_unique {β : Type} :
    ∀ (l : List (String × β)), (l.map (fun e => e.1)).Nodup →
    ∀ (nm : String) (x y : β), (nm, x) ∈ l → (nm, y) ∈ l → x = y := by
  intro l
  induction l with
  | nil => intro _ nm x y hx; cases hx
  | cons e rest ih =>
    intro hnd nm x y hx hy
    obtain ⟨k, b⟩ := e
    simp only [List.map_cons, List.nodup_cons] at hnd
    rcases List.mem_cons.mp hx with h1 | h1
    · rcases List.mem_cons.mp hy with h2 | h2
      · rw [Prod.mk.injEq] at h1 h2
        rw [h1.2, h2.2]
      · exfalso
        apply hnd.1
        rw [Prod.mk.injEq] at h1
        rw [← h1.1]
        exact List.mem_map_of_mem _ h2
    · rcases List.mem_cons.mp hy with h2 | h2
      · exfalso
        apply hnd.1
        rw [Prod.mk.injEq] at h2
        rw [← h2.1]
        exact List.mem_map_of_mem _ h1
      · exact ih hnd.2 nm x y h1 h2

theorem collectBase_subset :
    ∀ (l : List Attribute) (taken : List String) (a : Attribute),
    a ∈ collectBase l taken → a ∈ l := by
  intro l
  induction l with
  | nil => intro taken a h; cases h
  | cons b rest ih =>
    intro taken a h
    by_cases hb : b.name ∈ taken
    · simp only [collectBase, if_pos hb] at h
      exact List.mem_cons_of_mem _ (ih _ _ h)
    · simp only [collectBase, if_neg hb, List.mem_cons] at h
      rcases h with h | h
      · simp [h]
      · exact List.mem_cons_of_mem _ (ih _ _ h)

theorem collectBase_eq_filter :
    ∀ (l : List Attribute) (taken : List String),
    (l.map (fun a => a.name)).Nodup →
    collectBase l taken = l.filter (fun a => decide (a.name ∉ taken)) := by
  intro l
  induction l with
  | nil => intro taken _; rfl
  | cons b rest ih =>
    intro taken hnd
    simp only [List.map_cons, List.nodup_cons] at hnd
    by_cases hb : b.name ∈ taken
    · simp only [collectBase, if_pos hb, List.filter_cons]
      rw [ih taken hnd.2]
      simp [hb]
    · simp only [collectBase, if_neg hb, List.filter_cons]
      rw [ih (b.name :: taken) hnd.2]
      have hcong : rest.filter (fun a => decide (a.name ∉ b.name :: taken)) =
          rest.filter (fun a => decide (a.name ∉ taken)) := by
        apply List.filter_congr
        intro x hx
        have hxb : x.name ≠ b.name := by
          intro hh
          exact hnd.1 (hh ▸ List.mem_map_of_mem _ hx)
        simp [List.mem_cons, hxb]
      rw [hcong]
      simp [hb]

theorem count_inter_comm (xs ys : List String) (hxs : xs.Nodup)
    (hys : ys.Nodup) :
    (xs.filter (fun x => decide (x ∈ ys))).length =
      (ys.filter (fun y => decide (y ∈ xs))).length := by
  have hx2 : (xs.filter (fun x => decide (x ∈ ys))).Nodup := hxs.filter _
  have hy2 : (ys.filter (fun y => decide (y ∈ xs))).Nodup := hys.filter _
  rw [← List.toFinset_card_of_nodup hx2, ← List.toFinset_card_of_nodup hy2,
    List.toFinset_filter, List.toFinset_filter]
  apply congrArg Finset.card
  ext a
  simp only [Finset.mem_filter, List.mem_toFinset, decide_eq_true_eq]
  exact ⟨fun h => ⟨h.2, h.1⟩, fun h => ⟨h.2, h.1⟩⟩

theorem length_filter_partition {α : Type} (p : α → Bool) :
    ∀ (l : List α),
    (l.filter p).length + (l.filter (fun x => !(p x))).length = l.length := by
  intro l
  induction l with
  | nil => rfl
  | cons a l ih =>
    cases hp : p a <;> simp [List.filter_cons, hp] <;> omega

/-! ## Claims -/

/-- C3, counterexample: the claim states that decorate, called with a
program point and a class, returns a program point so that callers
receive the most advanced program point.  This is false on the code: the
Python decorate has no return statement, so its callers receive None; at
the concrete input below the value decorate hands back is none and not a
program point. -/
theorem C3_counterexample :
    ¬ ∃ n : Node,
      (okOf (decorate bmFalse 0 clsC3 [])).map DecorateResult.ret
        = some (some n) := by
  rintro ⟨n, h⟩
  rw [show (okOf (decorate bmFalse 0 clsC3 [])).map DecorateResult.ret
      = some none from rfl] at h
  simp at h

/-- C3, amended: decorate returns no value: every successful run of
decorate has return value none (Python None); the program point is only
threaded through, never advanced and never returned, and callers keep
the program point they already had. -/
theorem C3_ret_none (bm : Oracle) (node : Node) (cls : DCClass)
    (l : List LocalEntry) (r : DecorateResult)
    (hr : decorate bm node cls l = .ok r) : r.ret = none := by
  rw [decorate_eq] at hr
  cases h : annotsAfterE node cls.annots l with
  | error e =>
    rw [h] at hr
    exact absurd hr (by simp [Except.map])
  | ok an =>
    rw [h] at hr
    simp only [Except.map] at hr
    injection hr with hr2
    rw [← hr2]

/-- C3, witness: the amended theorem applied at a concrete run. -/
theorem C3_ret_none_witness : resC3w.ret = none :=
  C3_ret_none bmTrue 5 clsC3w [] resC3w rfl

/-- C4: a field configuration call whose keyword arguments include both
default and default_factory fails with a duplicate keyword error naming
the parameter default, regardless of the values supplied; when at most
one of the two is given the call does not raise this error. -/
theorem C4_duplicate_default (node : Node) (args : Args) :
    (get_default_var node args = .error (.duplicateKeyword "default") ↔
      ((dictGet args.namedargs "default").isSome ∧
        (dictGet args.namedargs "default_factory").isSome))
    ∧ ((okOf (get_default_var node args)).isSome ↔
      ¬((dictGet args.namedargs "default").isSome ∧
        (dictGet args.namedargs "default_factory").isSome)) := by
  cases h1 : dictGet args.namedargs "default" <;>
    cases h2 : dictGet args.namedargs "default_factory" <;>
      simp [get_default_var, h1, h2, okOf]

/-- C5: for every attribute processed during collection, a present
default whose merged type fails the host matcher produces exactly one
type mismatch diagnostic naming that attribute; an absent default skips
the check for every possible matcher; and the matcher verdict never
changes the control flow of decorate (same success, same resulting
class, same returned value), so collection continues without aborting.
The diagnostics of a successful decorate run are exactly the per-local
check results, in order. -/
theorem C5_default_check :
    (∀ (bm : Oracle) (node : Node) (nm : String) (v : Val),
      check_default bm node nm v none = [])
    ∧ (∀ (bm : Oracle) (node : Node) (nm : String) (v ov : Val),
        bm ov (Val.merged v) node = true →
        check_default bm node nm v (some ov) = [⟨Val.merged v, ov, nm⟩])
    ∧ (∀ (bm : Oracle) (node : Node) (nm : String) (v ov : Val),
        bm ov (Val.merged v) node = false →
        check_default bm node nm v (some ov) = [])
    ∧ (∀ (bm bm2 : Oracle) (node : Node) (cls : DCClass)
        (l : List LocalEntry),
        (okOf (decorate bm node cls l)).map (fun r => (r.cls, r.ret)) =
          (okOf (decorate bm2 node cls l)).map (fun r => (r.cls, r.ret)))
    ∧ (∀ (bm : Oracle) (node : Node) (cls : DCClass) (l : List LocalEntry)
        (r : DecorateResult), decorate bm node cls l = .ok r →
        r.diags = l.flatMap (localDiags bm node)) := by
  refine ⟨fun bm node nm v => rfl, ?_, ?_, ?_, ?_⟩
  · intro bm node nm v ov h
    simp [check_default, h]
  · intro bm node nm v ov h
    simp [check_default, h]
  · intro bm bm2 node cls l
    rw [decorate_eq, decorate_eq]
    cases h : annotsAfterE node cls.annots l <;> simp [h, Except.map, okOf]
  · intro bm node cls l r hr
    rw [decorate_eq] at hr
    cases h : annotsAfterE node cls.annots l with
    | error e =>
      rw [h] at hr
      exact absurd hr (by simp [Except.map])
    | ok an =>
      rw [h] at hr
      simp only [Except.map] at hr
      injection hr with hr2
      rw [← hr2]

/-- C5, witness: the singleton diagnostic clause applied at the concrete
attribute x with declared type int and incompatible default hello. -/
theorem C5_default_check_witness :
    check_default bmTrue 0 "x" tInt (some vHello) =
      [⟨Val.merged tInt, vHello, "x"⟩] :=
  C5_default_check.2.1 bmTrue 0 "x" tInt vHello rfl

/-- C6: decorate installs the synthetic constructor as the own __init__
member exactly when the members dict holds no __init__ after collection
and the init flag of the decorator configuration is true; when an
explicit __init__ exists it is preserved unchanged regardless of the
attribute list. -/
theorem C6_init_install (bm : Oracle) (node : Node) (cls : DCClass)
    (l : List LocalEntry) (r : DecorateResult)
    (hr : decorate bm node cls l = .ok r) :
    dictGet r.cls.members "__init__" =
      match dictGet (membersAfter cls.members l) "__init__" with
      | some w => some w
      | none =>
        if cls.initArg then
          some (make_init node (get_base_class_attrs cls.baseMetadata
            (ownAttrs node l) ++ ownAttrs node l))
        else none := by
  rw [decorate_eq] at hr
  cases h : annotsAfterE node cls.annots l with
  | error e =>
    rw [h] at hr
    exact absurd hr (by simp [Except.map])
  | ok an =>
    rw [h] at hr
    simp only [Except.map] at hr
    injection hr with hr2
    rw [← hr2]
    cases hm : dictGet (membersAfter cls.members l) "__init__" with
    | some w => simp [hm]
    | none =>
      cases hb : cls.initArg with
      | true => simp [hm, hb, dictGet_set_self]
      | false => simp [hm, hb]

/-- C6, witness: the theorem applied at a concrete run that installs the
synthetic constructor. -/
theorem C6_init_install_witness :
    dictGet resC6w.cls.members "__init__" =
      match dictGet (membersAfter clsC6w.members []) "__init__" with
      | some w => some w
      | none =>
        if clsC6w.initArg then
          some (make_init 3 (get_base_class_attrs clsC6w.baseMetadata
            (ownAttrs 3 []) ++ ownAttrs 3 []))
        else none :=
  C6_init_install bmFalse 3 clsC6w [] resC6w rfl

/-- C10: every successful decorate run stores the merged attribute list
(base attributes then own attributes) in the class metadata, and the
stored metadata is independent of the init flag of the decorator and of
the members dict (in particular of a pre-existing __init__): the write
does not depend on the constructor synthesis condition. -/
theorem C10_metadata_unconditional :
    (∀ (bm : Oracle) (node : Node) (cls : DCClass) (l : List LocalEntry)
      (r : DecorateResult), decorate bm node cls l = .ok r →
      r.cls.metadata = some (get_base_class_attrs cls.baseMetadata
        (ownAttrs node l) ++ ownAttrs node l))
    ∧ (∀ (bm : Oracle) (node : Node) (cls : DCClass) (l : List LocalEntry)
        (b b2 : Bool),
        (okOf (decorate bm node {cls with initArg := b} l)).map
          (fun r => r.cls.metadata) =
        (okOf (decorate bm node {cls with initArg := b2} l)).map
          (fun r => r.cls.metadata))
    ∧ (∀ (bm : Oracle) (node : Node) (cls : DCClass) (l : List LocalEntry)
        (M M2 : List (String × Val)),
        (okOf (decorate bm node {cls with members := M} l)).map
          (fun r => r.cls.metadata) =
        (okOf (decorate bm node {cls with members := M2} l)).map
          (fun r => r.cls.metadata)) := by
  refine ⟨?_, ?_, ?_⟩
  · intro bm node cls l r hr
    rw [decorate_eq] at hr
    cases h : annotsAfterE node cls.annots l with
    | error e =>
      rw [h] at hr
      exact absurd hr (by simp [Except.map])
    | ok an =>
      rw [h] at hr
      simp only [Except.map] at hr
      injection hr with hr2
      rw [← hr2]
  · intro bm node cls l b b2
    rw [decorate_eq, decorate_eq]
    cases h : annotsAfterE node cls.annots l <;> simp [h, Except.map, okOf]
  · intro bm node cls l M M2
    rw [decorate_eq, decorate_eq]
    cases h : annotsAfterE node cls.annots l <;> simp [h, Except.map, okOf]

/-- C10, witness: the unconditional store clause applied at a concrete
run whose class already has an explicit __init__ member. -/
theorem C10_metadata_unconditional_witness :
    resC10w.cls.metadata = some (get_base_class_attrs clsC10w.baseMetadata
      (ownAttrs 0 localsC10w) ++ ownAttrs 0 localsC10w) :=
  C10_metadata_unconditional.1 bmFalse 0 clsC10w localsC10w resC10w rfl

/-- C7: for an own member declared as InitVar with inner type t, with no
original value the name is deleted from the annotations table (absent
after collection) yet an Attribute for it is recorded in the stored
metadata with init = true; with an original value the annotations entry
is kept, rewritten to the unpacked inner type, and the recorded
Attribute carries that original value as its default. -/
theorem C7_initvar (bm : Oracle) (node : Node) (cls : DCClass)
    (l1 l2 : List LocalEntry) (nm : String) (t : Val) (orig : Option Val)
    (r : DecorateResult)
    (hnd : ((l1 ++ (nm, Val.initVar t, orig) :: l2).map
      (fun e => e.1)).Nodup)
    (hr : decorate bm node cls (l1 ++ (nm, Val.initVar t, orig) :: l2)
      = .ok r) :
    (∃ attrs, r.cls.metadata = some attrs ∧
      (⟨nm, .instanceOf t node, true, orig⟩ : Attribute) ∈ attrs)
    ∧ (orig = none → dictGet r.cls.annots nm = none)
    ∧ (∀ ov, orig = some ov →
        dictGet r.cls.annots nm = some (.toVar t node)) := by
  have hnm2 : nm ∉ l2.map (fun e => e.1) := by
    rw [List.map_append, List.nodup_append] at hnd
    have h2 := hnd.2.1
    rw [List.map_cons, List.nodup_cons] at h2
    exact h2.1
  rw [decorate_eq] at hr
  cases hAn : annotsAfterE node cls.annots
      (l1 ++ (nm, Val.initVar t, orig) :: l2) with
  | error e =>
    rw [hAn] at hr
    exact absurd hr (by simp [Except.map])
  | ok an =>
    rw [hAn] at hr
    simp only [Except.map] at hr
    injection hr with hr2
    rw [← hr2]
    have hmemA : (⟨nm, Val.instanceOf t node, true, orig⟩ : Attribute) ∈
        ownAttrs node (l1 ++ (nm, Val.initVar t, orig) :: l2) := by
      have hin : (nm, Val.initVar t, orig) ∈
          l1 ++ (nm, Val.initVar t, orig) :: l2 :=
        List.mem_append_right l1 (List.mem_cons_self _ _)
      have hm := mem_ownAttrs node _ nm (Val.initVar t) orig hin rfl
      simpa [mkAttrFor, match_initvar] using hm
    have hannots : dictGet an nm =
        (match orig with
          | none => none
          | some _ => some (Val.toVar t node)) := by
      rw [annotsAfterE_append] at hAn
      cases h1 : annotsAfterE node cls.annots l1 with
      | error e => rw [h1] at hAn; cases hAn
      | ok a1 =>
        rw [h1] at hAn
        cases orig with
        | none =>
          cases hdel : dictDel a1 nm with
          | none => simp [annotsAfterE, match_classvar, match_initvar,
              hdel] at hAn
          | some a2 =>
            simp only [annotsAfterE, match_classvar, match_initvar,
              hdel, Option.isSome_none, Bool.false_eq_true, if_false]
              at hAn
            rw [annotsAfterE_get_not_mem node nm l2 a2 an hnm2 hAn]
            exact dictGet_del_self a1 a2 nm hdel
        | some ov =>
          simp only [annotsAfterE, match_classvar, match_initvar,
            Option.isSome_none, Bool.false_eq_true, if_false] at hAn
          rw [annotsAfterE_get_not_mem node nm l2 _ an hnm2 hAn]
          exact dictGet_set_self a1 nm (Val.toVar t node)
    refine ⟨⟨_, rfl, ?_⟩, ?_, ?_⟩
    · exact List.mem_append_right _ hmemA
    · intro h0
      subst h0
      exact hannots
    · intro ov h0
      subst h0
      exact hannots

/-- C7, witness: the theorem applied at a concrete class with a single
InitVar member without a default. -/
theorem C7_initvar_witness :
    (∃ attrs, resC7w.cls.metadata = some attrs ∧
      (⟨"x", .instanceOf tInt 0, true, none⟩ : Attribute) ∈ attrs)
    ∧ ((none : Option Val) = none → dictGet resC7w.cls.annots "x" = none)
    ∧ (∀ ov, (none : Option Val) = some ov →
        dictGet resC7w.cls.annots "x" = some (.toVar tInt 0)) :=
  C7_initvar bmFalse 0 clsC7w [] [] "x" tInt none resC7w (by decide) rfl

/-- C8: an own member whose declared type matches ClassVar produces no
Attribute: provided the inherited metadata does not list the name
either, no entry of the stored merged attribute list carries that name
(hence it contributes no constructor parameter). -/
theorem C8_classvar_skip (bm : Oracle) (node : Node) (cls : DCClass)
    (l : List LocalEntry) (nm : String) (t v : Val) (orig : Option Val)
    (r : DecorateResult)
    (hmem : (nm, v, orig) ∈ l) (hcv : match_classvar v = some t)
    (hnd : (l.map (fun e => e.1)).Nodup)
    (hbase : ∀ a ∈ cls.baseMetadata.flatten, a.name ≠ nm)
    (hr : decorate bm node cls l = .ok r) :
    ∀ attrs, r.cls.metadata = some attrs → ∀ a ∈ attrs, a.name ≠ nm := by
  intro attrs hmeta a ha
  rw [decorate_eq] at hr
  cases hAn : annotsAfterE node cls.annots l with
  | error e =>
    rw [hAn] at hr
    exact absurd hr (by simp [Except.map])
  | ok an =>
    rw [hAn] at hr
    simp only [Except.map] at hr
    injection hr with hr2
    rw [← hr2] at hmeta
    have hattrs : attrs = get_base_class_attrs cls.baseMetadata
        (ownAttrs node l) ++ ownAttrs node l := by
      have := hmeta
      simp only [Option.some.injEq] at this
      exact this.symm
    subst hattrs
    rcases List.mem_append.mp ha with hb | ho
    · simp only [get_base_class_attrs] at hb
      exact hbase a (collectBase_subset _ _ _ hb)
    · obtain ⟨e, he, hecv, hae⟩ := mem_ownAttrs_inv node l a ho
      intro hEq
      have hname : e.1 = nm := by
        rw [hae, mkAttrFor_name] at hEq
        exact hEq
      have hmem2 : (nm, e.2) ∈ l := by
        rw [← hname]
        exact he
      have he2 : e.2 = (v, orig) :=
        nodup_key_unique l hnd nm e.2 (v, orig) hmem2 hmem
      rw [he2] at hecv
      rw [hcv] at hecv
      cases hecv

/-- C8, witness: the theorem applied at a concrete class whose only
local is a ClassVar member x; the inherited attribute y survives and is
not named x. -/
theorem C8_classvar_skip_witness : attrY.name ≠ "x" :=
  C8_classvar_skip bmFalse 0 clsC8w localsC8w "x" tInt (.classVar tInt)
    none resC8w (by decide) rfl (by decide) (by decide) rfl
    [attrY] rfl attrY (by decide)

/-- Filtering attributes by a property of their names has the same
length as filtering the name list. -/
theorem length_filter_name (p : String → Bool) :
    ∀ (l : List Attribute),
    (l.filter (fun a => p a.name)).length =
      ((l.map (fun a => a.name)).filter p).length := by
  intro l
  induction l with
  | nil => rfl
  | cons a l ih =>
    cases hp : p a.name <;>
      simp [List.filter_cons, List.map_cons, hp, ih]

/-- C2, counterexample: the claim says the Attribute recorded for a
member whose original value is a field() descriptor takes its default
from the descriptor default.  The code instead records the descriptor
typ: at the input below the descriptor carries typ = int and default =
three, and the stored attribute has default int, not three. -/
theorem C2_counterexample :
    (okOf (decorate bmFalse 0 clsC2 localsC2)).map (fun r => r.cls.metadata)
      = some (some [⟨"x", tInt, true, some tInt⟩])
    ∧ (okOf (decorate bmFalse 0 clsC2 localsC2)).map (fun r => r.cls.metadata)
      ≠ some (some [⟨"x", tInt, true, some vThree⟩]) := by
  constructor
  · rfl
  · decide

/-- C2, amended: for an own member whose original value is a field()
descriptor with typ t, init i and default d, and whose declared value is
neither ClassVar nor InitVar, the recorded Attribute takes init from the
descriptor, its type from the annotated value, and as default the
descriptor typ t when the descriptor default is present (absent
otherwise), rather than the descriptor default itself; the attribute is
stored in the class metadata. -/
theorem C2_field_attr (bm : Oracle) (node : Node) (cls : DCClass)
    (l : List LocalEntry) (nm : String) (v t : Val) (i : Bool)
    (d : Option Val) (orig : Option Val) (r : DecorateResult)
    (hmem : (nm, v, orig) ∈ l)
    (hfp : fieldParams orig = some (t, i, d))
    (hcv : match_classvar v = none) (hiv : match_initvar v = none)
    (hnd : (l.map (fun e => e.1)).Nodup)
    (hr : decorate bm node cls l = .ok r) :
    (⟨nm, v, i, if d.isSome then some t else none⟩ : Attribute)
      ∈ ownAttrs node l
    ∧ (∀ a ∈ ownAttrs node l, a.name = nm →
        a = ⟨nm, v, i, if d.isSome then some t else none⟩)
    ∧ ∃ attrs, r.cls.metadata = some attrs ∧
        (⟨nm, v, i, if d.isSome then some t else none⟩ : Attribute)
          ∈ attrs := by
  have hmk : mkAttrFor node nm v orig =
      ⟨nm, v, i, if d.isSome then some t else none⟩ := by
    simp [mkAttrFor, hiv, hfp]
  have hmemO : (⟨nm, v, i, if d.isSome then some t else none⟩ : Attribute)
      ∈ ownAttrs node l := by
    have hm := mem_ownAttrs node l nm v orig hmem hcv
    rw [hmk] at hm
    exact hm
  refine ⟨hmemO, ?_, ?_⟩
  · intro a haO haname
    obtain ⟨e, he, hecv, hae⟩ := mem_ownAttrs_inv node l a haO
    have hname : e.1 = nm := by
      rw [hae, mkAttrFor_name] at haname
      exact haname
    have hmem2 : (nm, e.2) ∈ l := by
      rw [← hname]
      exact he
    have he2 : e.2 = (v, orig) :=
      nodup_key_unique l hnd nm e.2 (v, orig) hmem2 hmem
    rw [hae, hname, he2]
    exact hmk
  · rw [decorate_eq] at hr
    cases hAn : annotsAfterE node cls.annots l with
    | error e =>
      rw [hAn] at hr
      exact absurd hr (by simp [Except.map])
    | ok an =>
      rw [hAn] at hr
      simp only [Except.map] at hr
      injection hr with hr2
      rw [← hr2]
      exact ⟨_, rfl, List.mem_append_right _ hmemO⟩

/-- C2, witness: the amended theorem applied at a concrete member whose
descriptor has init false and no default. -/
theorem C2_field_attr_witness :
    (⟨"y", tStr, false, none⟩ : Attribute) ∈ ownAttrs 0 localsC2w
    ∧ (∀ a ∈ ownAttrs 0 localsC2w, a.name = "y" →
        a = ⟨"y", tStr, false, none⟩)
    ∧ ∃ attrs, resC2w.cls.metadata = some attrs ∧
        (⟨"y", tStr, false, none⟩ : Attribute) ∈ attrs :=
  C2_field_attr bmFalse 0 clsC2w localsC2w "y" tStr tInt false none
    (some (.fieldInstN tInt false)) resC2w (by decide) rfl rfl rfl
    (by decide) rfl

/-- C1, counterexample: the base metadata lists a then b and the
subclass overrides a.  The claim puts the override into the inherited
slot (merged names a, b); the code drops the inherited entry and appends
the override after the retained inherited attributes, giving merged
names b, a. -/
theorem C1_counterexample :
    (okOf (decorate bmFalse 0 clsC1 localsC1)).map
      (fun r => r.cls.metadata.map (fun attrs => attrs.map
        (fun a => a.name)))
      = some (some ["b", "a"])
    ∧ (okOf (decorate bmFalse 0 clsC1 localsC1)).map
      (fun r => r.cls.metadata.map (fun attrs => attrs.map
        (fun a => a.name)))
      ≠ some (some ["a", "b"]) := by
  constructor
  · rfl
  · decide

/-- C1, amended: for a subclass overriding inherited names, the stored
merged list is the inherited attributes whose names are not overridden,
in order, followed by all own attributes in declaration order (the
override therefore sits in the own section, not in the inherited slot);
the merged names have no duplicates and the length is the inherited
count plus the count of own attributes with new names. -/
theorem C1_merge (bm : Oracle) (node : Node) (cls : DCClass)
    (l : List LocalEntry) (r : DecorateResult)
    (hb : (cls.baseMetadata.flatten.map (fun a => a.name)).Nodup)
    (ho : ((ownAttrs node l).map (fun a => a.name)).Nodup)
    (hr : decorate bm node cls l = .ok r) :
    r.cls.metadata = some (cls.baseMetadata.flatten.filter
        (fun a => decide (a.name ∉ (ownAttrs node l).map
          (fun a => a.name)))
      ++ ownAttrs node l)
    ∧ ((cls.baseMetadata.flatten.filter
        (fun a => decide (a.name ∉ (ownAttrs node l).map
          (fun a => a.name)))
      ++ ownAttrs node l).map (fun a => a.name)).Nodup
    ∧ (cls.baseMetadata.flatten.filter
        (fun a => decide (a.name ∉ (ownAttrs node l).map
          (fun a => a.name)))
      ++ ownAttrs node l).length
      = cls.baseMetadata.flatten.length
        + ((ownAttrs node l).filter (fun a =>
            decide (a.name ∉ cls.baseMetadata.flatten.map
              (fun a => a.name)))).length := by
  have hfilter : get_base_class_attrs cls.baseMetadata (ownAttrs node l)
      = cls.baseMetadata.flatten.filter
        (fun a => decide (a.name ∉ (ownAttrs node l).map
          (fun a => a.name))) := by
    unfold get_base_class_attrs
    exact collectBase_eq_filter _ _ hb
  refine ⟨?_, ?_, ?_⟩
  · rw [decorate_eq] at hr
    cases hAn : annotsAfterE node cls.annots l with
    | error e =>
      rw [hAn] at hr
      exact absurd hr (by simp [Except.map])
    | ok an =>
      rw [hAn] at hr
      simp only [Except.map] at hr
      injection hr with hr2
      rw [← hr2, ← hfilter]
  · rw [List.map_append, List.nodup_append]
    refine ⟨?_, ho, ?_⟩
    · exact List.Nodup.sublist
        (List.Sublist.map (fun a : Attribute => a.name)
          (List.filter_sublist cls.baseMetadata.flatten)) hb
    · intro x hx
      obtain ⟨a, ha, rfl⟩ := List.mem_map.mp hx
      have := (List.mem_filter.mp ha).2
      simpa using this
  · rw [List.length_append]
    have hpart := length_filter_partition
      (fun a => decide (a.name ∉ (ownAttrs node l).map (fun a => a.name)))
      cls.baseMetadata.flatten
    have hpart2 := length_filter_partition
      (fun a => decide (a.name ∉ cls.baseMetadata.flatten.map
        (fun a => a.name)))
      (ownAttrs node l)
    have hcong1 : cls.baseMetadata.flatten.filter
        (fun a => !(decide (a.name ∉ (ownAttrs node l).map
          (fun a => a.name))))
        = cls.baseMetadata.flatten.filter
          (fun a => decide (a.name ∈ (ownAttrs node l).map
            (fun a => a.name))) := by
      apply List.filter_congr
      intro a _
      simp only [decide_not, Bool.not_not]
    have hcong2 : (ownAttrs node l).filter
        (fun a => !(decide (a.name ∉ cls.baseMetadata.flatten.map
          (fun a => a.name))))
        = (ownAttrs node l).filter
          (fun a => decide (a.name ∈ cls.baseMetadata.flatten.map
            (fun a => a.name))) := by
      apply List.filter_congr
      intro a _
      simp only [decide_not, Bool.not_not]
    rw [hcong1] at hpart
    rw [hcong2] at hpart2
    have hcount : (cls.baseMetadata.flatten.filter
        (fun a => decide (a.name ∈ (ownAttrs node l).map
          (fun a => a.name)))).length
        = ((ownAttrs node l).filter
          (fun a => decide (a.name ∈ cls.baseMetadata.flatten.map
            (fun a => a.name)))).length := by
      have e1 : (cls.baseMetadata.flatten.filter
          (fun a => decide (a.name ∈ (ownAttrs node l).map
            (fun a => a.name)))).length
          = ((cls.baseMetadata.flatten.map (fun a => a.name)).filter
            (fun x => decide (x ∈ (ownAttrs node l).map
              (fun a => a.name)))).length :=
        length_filter_name (fun x => decide (x ∈ (ownAttrs node l).map
          (fun a => a.name))) cls.baseMetadata.flatten
      have e2 : ((ownAttrs node l).filter
          (fun a => decide (a.name ∈ cls.baseMetadata.flatten.map
            (fun a => a.name)))).length
          = (((ownAttrs node l).map (fun a => a.name)).filter
            (fun x => decide (x ∈ cls.baseMetadata.flatten.map
              (fun a => a.name)))).length :=
        length_filter_name (fun x => decide (x ∈
          cls.baseMetadata.flatten.map (fun a => a.name)))
          (ownAttrs node l)
      rw [e1, e2]
      exact count_inter_comm _ _ hb ho
    omega

/-- C1, witness: the amended theorem applied at a concrete subclass
overriding the inherited a and adding a new c. -/
theorem C1_merge_witness :
    resC1w.cls.metadata = some (clsC1w.baseMetadata.flatten.filter
        (fun a => decide (a.name ∉ (ownAttrs 0 localsC1w).map
          (fun a => a.name)))
      ++ ownAttrs 0 localsC1w)
    ∧ ((clsC1w.baseMetadata.flatten.filter
        (fun a => decide (a.name ∉ (ownAttrs 0 localsC1w).map
          (fun a => a.name)))
      ++ ownAttrs 0 localsC1w).map (fun a => a.name)).Nodup
    ∧ (clsC1w.baseMetadata.flatten.filter
        (fun a => decide (a.name ∉ (ownAttrs 0 localsC1w).map
          (fun a => a.name)))
      ++ ownAttrs 0 localsC1w).length
      = clsC1w.baseMetadata.flatten.length
        + ((ownAttrs 0 localsC1w).filter (fun a =>
            decide (a.name ∉ clsC1w.baseMetadata.flatten.map
              (fun a => a.name)))).length :=
  C1_merge bmFalse 0 clsC1w localsC1w resC1w (by decide) (by decide) rfl

/-- C9, counterexample: for the class whose only local is an InitVar
without a default, the first decorate run succeeds (deleting the name
from the annotations dict), and running decorate a second time on the
resulting class raises a KeyError instead of storing the same attribute
list again. -/
theorem C9_counterexample :
    (okOf (decorate bmFalse 0 clsC9 localsC9)).elim False
      (fun r => decorate bmFalse 0 r.cls localsC9
        = .error (.keyError "x")) := rfl

/-- C9, amended: for a class none of whose locals is an InitVar without
a default, running decorate a second time on the class produced by the
first run succeeds and stores the same metadata under the key; a
default-less InitVar instead makes the second run fail with a KeyError,
because the first run deleted the name from the annotations dict. -/
theorem C9_idempotent (bm : Oracle) (node : Node) (cls : DCClass)
    (l : List LocalEntry) (r1 : DecorateResult)
    (hno : ∀ e ∈ l, (match_initvar e.2.1).isSome → e.2.2.isSome)
    (h1 : decorate bm node cls l = .ok r1) :
    ∃ r2, decorate bm node r1.cls l = .ok r2 ∧
      r2.cls.metadata = r1.cls.metadata := by
  rw [decorate_eq] at h1
  cases hAn : annotsAfterE node cls.annots l with
  | error e =>
    rw [hAn] at h1
    exact absurd h1 (by simp [Except.map])
  | ok an =>
    rw [hAn] at h1
    simp only [Except.map] at h1
    injection h1 with h1b
    obtain ⟨a2, ha2⟩ := annotsAfterE_ok node l hno r1.cls.annots
    refine ⟨_, by rw [decorate_eq, ha2]; rfl, ?_⟩
    rw [← h1b]

/-- C9, witness: the amended theorem applied at a concrete class with a
plain defaulted member. -/
theorem C9_idempotent_witness :
    ∃ r2, decorate bmFalse 0 resC9w.cls localsC9w = .ok r2 ∧
      r2.cls.metadata = resC9w.cls.metadata :=
  C9_idempotent bmFalse 0 clsC9w localsC9w resC9w (by decide) rfl
